import Mathlib

/-!
Verification of the gdrive local-mirror library.

The Go sources are embedded shallowly:
* `model.go` / `memory_dao.go`: `FileInfo` records and the in-memory Dao
  (`InsertOrUpdate`, `Touch`, `Delete`, `TotalSize`, `QueryOldest`) become
  pure functions over `List FileInfo`.  Timestamps are modelled as integers,
  byte slices as `List Nat`.
* `gdrive.go`: `StoreFile`, `TouchFile`, `uploadToCloud`, `storeFileToLocal`,
  the `UploadAll` worker body, `shouldRemove` and the `Start` loop become
  functions parametrised by an environment of I/O oracles (stat results,
  remote-store contents, success flags); each operation also returns the
  ordered trace of side effects it performed.
-/

namespace GDrive

/-- Metadata record for one tracked file (`model.go`, `FileInfo`).
Timestamps are modelled as integers. -/
structure FileInfo where
  fileID : String
  lastAccess : Int
  filepath : String
  size : Int
  mimeType : String
deriving Repr, DecidableEq, Inhabited

/-- Memory.InsertOrUpdate (`memory_dao.go`): replace the first record whose
Filepath matches (refreshing its LastAccess to now, as the Go code does in
the update branch), otherwise append at the end. -/
def InsertOrUpdate (now : Int) (fi : FileInfo) : List FileInfo → List FileInfo
  | [] => [fi]
  | d :: rest =>
    if d.filepath = fi.filepath then { fi with lastAccess := now } :: rest
    else d :: InsertOrUpdate now fi rest

/-- Memory.Touch (`memory_dao.go`): set LastAccess of the first record whose
Filepath matches; a missing path is not an error and changes nothing. -/
def Touch (p : String) (date : Int) : List FileInfo → List FileInfo
  | [] => []
  | d :: rest =>
    if d.filepath = p then { d with lastAccess := date } :: rest
    else d :: Touch p date rest

/-- Memory.Delete (`memory_dao.go`): remove the first record whose Filepath
matches; `none` models the "file not found" error. -/
def Delete (p : String) : List FileInfo → Option (List FileInfo)
  | [] => none
  | d :: rest =>
    if d.filepath = p then some rest
    else (Delete p rest).map (d :: ·)

/-- Memory.TotalSize (`memory_dao.go`): fold accumulating the Size fields. -/
def TotalSize (data : List FileInfo) : Int :=
  data.foldl (fun total fi => total + fi.size) 0

/-- Sum of the Size fields, the specification-side form of `TotalSize`. -/
def sizeSum (l : List FileInfo) : Int :=
  (l.map FileInfo.size).sum

/-- Ascending order on LastAccess used by Memory.QueryOldest. -/
def accessLe (a b : FileInfo) : Prop := a.lastAccess ≤ b.lastAccess

instance : DecidableRel accessLe := fun a b => by
  unfold accessLe; infer_instance

instance : IsTotal FileInfo accessLe := ⟨fun x y => Int.le_total x.lastAccess y.lastAccess⟩

instance : IsTrans FileInfo accessLe := ⟨fun _ _ _ h h' => le_trans h h'⟩

/-- Sorting step of Memory.QueryOldest (`slices.SortFunc` by
`LastAccess.Before`), modelled as an insertion sort by the same key. -/
def sortByAccess (data : List FileInfo) : List FileInfo :=
  List.insertionSort accessLe data

/-- Memory.QueryOldest (`memory_dao.go`): sort the backing slice in place by
ascending LastAccess and return the first `limit` entries. -/
def QueryOldest (limit : Nat) (data : List FileInfo) : List FileInfo :=
  (sortByAccess data).take limit

/-- Pairwise-distinct Filepath keys: the "at most one record per path"
invariant of the Metadata Store. -/
def DaoKeysOk (data : List FileInfo) : Prop :=
  List.Pairwise (fun a b => a.filepath ≠ b.filepath) data

/-- One mutating operation of the Dao interface (`dao.go`). -/
inductive DaoOp where
  | insertOrUpdate (now : Int) (fi : FileInfo)
  | touch (p : String) (date : Int)
  | delete (p : String)

/-- Apply one Dao operation; a failed Delete leaves the data unchanged. -/
def applyOp (data : List FileInfo) : DaoOp → List FileInfo
  | DaoOp.insertOrUpdate now fi => InsertOrUpdate now fi data
  | DaoOp.touch p date => Touch p date data
  | DaoOp.delete p => (Delete p data).getD data

/-- Run a sequence of Dao operations from the empty store
(`NewMemoryDao`). -/
def runOps (ops : List DaoOp) : List FileInfo :=
  ops.foldl applyOp []

theorem totalSize_shift (data : List FileInfo) :
    ∀ init : Int, data.foldl (fun total fi => total + fi.size) init =
      init + sizeSum data := by
  induction data with
  | nil => intro init; simp [sizeSum]
  | cons d rest ih =>
    intro init
    simp only [List.foldl_cons, ih, sizeSum, List.map_cons, List.sum_cons]
    ring

theorem totalSize_eq_sizeSum (data : List FileInfo) :
    TotalSize data = sizeSum data := by
  have h := totalSize_shift data 0
  simpa [TotalSize] using h

theorem mem_insertOrUpdate {x : FileInfo} {now : Int} {fi : FileInfo} :
    ∀ {data : List FileInfo}, x ∈ InsertOrUpdate now fi data →
      x ∈ data ∨ x.filepath = fi.filepath := by
  intro data
  induction data with
  | nil =>
    intro hx
    simp only [InsertOrUpdate, List.mem_singleton] at hx
    subst hx; right; rfl
  | cons d rest ih =>
    intro hx
    by_cases h : d.filepath = fi.filepath
    · simp only [InsertOrUpdate, if_pos h, List.mem_cons] at hx
      rcases hx with hx | hx
      · subst hx; right; rfl
      · left; exact List.mem_cons_of_mem _ hx
    · simp only [InsertOrUpdate, if_neg h, List.mem_cons] at hx
      rcases hx with hx | hx
      · left; subst hx; exact List.mem_cons_self _ _
      · rcases ih hx with h2 | h2
        · left; exact List.mem_cons_of_mem _ h2
        · right; exact h2

theorem keysOk_insertOrUpdate {now : Int} {fi : FileInfo} :
    ∀ {data : List FileInfo}, DaoKeysOk data →
      DaoKeysOk (InsertOrUpdate now fi data) := by
  intro data
  induction data with
  | nil => intro _; simp [InsertOrUpdate, DaoKeysOk]
  | cons d rest ih =>
    intro h
    rcases List.pairwise_cons.mp h with ⟨hhead, htail⟩
    by_cases hd : d.filepath = fi.filepath
    · simp only [InsertOrUpdate, if_pos hd]
      refine List.pairwise_cons.mpr ⟨?_, htail⟩
      intro x hx
      have : d.filepath ≠ x.filepath := hhead x hx
      simpa [hd] using this
    · simp only [InsertOrUpdate, if_neg hd]
      refine List.pairwise_cons.mpr ⟨?_, ih htail⟩
      intro x hx
      rcases mem_insertOrUpdate hx with h2 | h2
      · exact hhead x h2
      · rw [h2]; exact hd

theorem touch_map_filepath (p : String) (date : Int) :
    ∀ data : List FileInfo,
      (Touch p date data).map FileInfo.filepath = data.map FileInfo.filepath := by
  intro data
  induction data with
  | nil => simp [Touch]
  | cons d rest ih =>
    by_cases h : d.filepath = p
    · simp [Touch, if_pos h]
    · simp [Touch, if_neg h, ih]

theorem keysOk_touch {p : String} {date : Int} {data : List FileInfo}
    (h : DaoKeysOk data) : DaoKeysOk (Touch p date data) := by
  have hiff : ∀ l : List FileInfo,
      DaoKeysOk l ↔ (l.map FileInfo.filepath).Pairwise (· ≠ ·) := by
    intro l; unfold DaoKeysOk; rw [List.pairwise_map]
  rw [hiff] at h ⊢
  rw [touch_map_filepath]
  exact h

theorem delete_sublist {p : String} :
    ∀ {data data' : List FileInfo}, Delete p data = some data' →
      data'.Sublist data := by
  intro data
  induction data with
  | nil => intro data' h; simp [Delete] at h
  | cons d rest ih =>
    intro data' h
    by_cases hd : d.filepath = p
    · simp only [Delete, if_pos hd, Option.some_inj] at h
      subst h
      exact List.sublist_cons_self d rest
    · simp only [Delete, if_neg hd] at h
      cases hrec : Delete p rest with
      | none => rw [hrec] at h; simp at h
      | some rest' =>
        rw [hrec] at h
        have h2 : d :: rest' = data' := by simpa using h
        subst h2
        exact List.Sublist.cons₂ d (ih hrec)

theorem keysOk_delete {p : String} {data : List FileInfo}
    (h : DaoKeysOk data) : DaoKeysOk ((Delete p data).getD data) := by
  cases hdel : Delete p data with
  | none => simp only [Option.getD_none]; exact h
  | some data' =>
    simp only [Option.getD_some]
    exact List.Pairwise.sublist (delete_sublist hdel) h

theorem keysOk_runOps_aux :
    ∀ (ops : List DaoOp) (data : List FileInfo), DaoKeysOk data →
      DaoKeysOk (ops.foldl applyOp data) := by
  intro ops
  induction ops with
  | nil => intro data h; simpa using h
  | cons op rest ih =>
    intro data h
    simp only [List.foldl_cons]
    apply ih
    cases op with
    | insertOrUpdate now fi => exact keysOk_insertOrUpdate h
    | touch p date => exact keysOk_touch h
    | delete p => exact keysOk_delete h

/-- C8: across every sequence of InsertOrUpdate, Touch and Delete operations
starting from the empty Memory store, at most one record exists per
Filepath, and TotalSize always equals the sum of the Size fields over the
stored records. -/
theorem C8_memory_dao_invariants (ops : List DaoOp) :
    DaoKeysOk (runOps ops) ∧ TotalSize (runOps ops) = sizeSum (runOps ops) := by
  constructor
  · exact keysOk_runOps_aux ops [] (by simp [DaoKeysOk])
  · exact totalSize_eq_sizeSum _

/-- C10: Touch on a path with no record succeeds and changes nothing, while
Delete on the same missing path fails (returns no new state). -/
theorem C10_touch_delete_missing (data : List FileInfo) (p : String) (t : Int)
    (h : ∀ fi ∈ data, fi.filepath ≠ p) :
    Touch p t data = data ∧ Delete p data = none := by
  induction data with
  | nil => exact ⟨rfl, rfl⟩
  | cons d rest ih =>
    have hd : d.filepath ≠ p := h d (List.mem_cons_self _ _)
    have hrest : ∀ fi ∈ rest, fi.filepath ≠ p :=
      fun fi hfi => h fi (List.mem_cons_of_mem _ hfi)
    rcases ih hrest with ⟨h1, h2⟩
    constructor
    · simp [Touch, if_neg hd, h1]
    · simp [Delete, if_neg hd, h2]

/-- Sample record used to instantiate hypothesis-bearing theorems. -/
def fiA : FileInfo := ⟨"id1", 5, "a.txt", 3, "text"⟩

/-- Concrete instantiation of `C10_touch_delete_missing`. -/
theorem C10_touch_delete_missing_witness :
    (∀ fi ∈ [fiA], fi.filepath ≠ "b.txt") ∧
    (Touch "b.txt" 9 [fiA] = [fiA] ∧ Delete "b.txt" [fiA] = none) :=
  ⟨by decide, C10_touch_delete_missing [fiA] "b.txt" 9 (by decide)⟩

/-- convertToGDrive (`gdrive.go`): `strings.ReplaceAll(path, "/", "#")`,
modelled characterwise since the pattern is a single character. -/
def convertToGDrive (p : String) : String :=
  ⟨p.data.map fun c => if c = '/' then '#' else c⟩

/-- C9 fails as stated: the mapping is not injective on all relative paths,
because a path may already contain the substitution character. -/
theorem C9_counterexample :
    convertToGDrive "a/b" = convertToGDrive "a#b" ∧ "a/b" ≠ "a#b" := by
  decide

theorem convert_inj_aux :
    ∀ (l m : List Char), '#' ∉ l → '#' ∉ m →
      (l.map fun c => if c = '/' then '#' else c) =
        (m.map fun c => if c = '/' then '#' else c) → l = m := by
  intro l
  induction l with
  | nil =>
    intro m _ _ h
    cases m with
    | nil => rfl
    | cons c cs => simp at h
  | cons c cs ih =>
    intro m hl hm h
    cases m with
    | nil => simp at h
    | cons d ds =>
      simp only [List.map_cons, List.cons.injEq] at h
      rcases h with ⟨hhead, htail⟩
      have hc : c ≠ '#' := fun hc => hl (hc ▸ List.mem_cons_self _ _)
      have hd : d ≠ '#' := fun hd => hm (hd ▸ List.mem_cons_self _ _)
      have hcs : '#' ∉ cs := fun hx => hl (List.mem_cons_of_mem _ hx)
      have hds : '#' ∉ ds := fun hx => hm (List.mem_cons_of_mem _ hx)
      have heq : c = d := by
        by_cases h1 : c = '/'
        · by_cases h2 : d = '/'
          · rw [h1, h2]
          · rw [if_pos h1, if_neg h2] at hhead
            exact absurd hhead.symm hd
        · by_cases h2 : d = '/'
          · rw [if_neg h1, if_pos h2] at hhead
            exact absurd hhead hc
          · rwa [if_neg h1, if_neg h2] at hhead
      rw [heq, ih ds hcs hds htail]

/-- C9 amended: the remote name contains no separator, and the mapping is
injective on paths that do not contain the reserved character `#`. -/
theorem C9_amended_flat_injective (s t : String)
    (hs : '#' ∉ s.data) (ht : '#' ∉ t.data) :
    '/' ∉ (convertToGDrive s).data ∧
      (convertToGDrive s = convertToGDrive t → s = t) := by
  constructor
  · intro hmem
    simp only [convertToGDrive, List.mem_map] at hmem
    rcases hmem with ⟨c, _, hc⟩
    by_cases h : c = '/'
    · rw [if_pos h] at hc
      exact absurd hc (by decide)
    · rw [if_neg h] at hc
      exact h hc
  · intro h
    have hdata : s.data.map (fun c => if c = '/' then '#' else c) =
        t.data.map (fun c => if c = '/' then '#' else c) := by
      have := congrArg String.data h
      simpa [convertToGDrive] using this
    exact congrArg String.mk (convert_inj_aux s.data t.data hs ht hdata)

/-- Concrete instantiation of `C9_amended_flat_injective`. -/
theorem C9_amended_flat_injective_witness :
    ('#' ∉ "a/b".data) ∧
    ('/' ∉ (convertToGDrive "a/b").data ∧
      (convertToGDrive "a/b" = convertToGDrive "a/b" → "a/b" = "a/b")) :=
  ⟨by decide, C9_amended_flat_injective "a/b" "a/b" (by decide) (by decide)⟩

/-- Result of an os.Stat call. -/
inductive StatRes where
  | found
  | notFound
  | statError
deriving Repr, DecidableEq

/-- Remote drive object as far as the code reads it (Id and MimeType). -/
structure DriveFile where
  id : String
  mimeType : String
deriving Repr, DecidableEq, Inhabited

/-- Error taxonomy of the synchronizer operations. -/
inductive GErr where
  | fileExist
  | remoteNotFound
  | transport
  | localIO
deriving Repr, DecidableEq

/-- Side effects a synchronizer operation can perform, in order. -/
inductive SEv where
  | remoteCreate (name : String) (content : List Nat)
  | remoteUpdate (id : String) (content : List Nat)
  | remoteListQuery (name : String)
  | remoteDownload (id : String)
  | mkdirAll (dir : String)
  | localWrite (path : String) (content : List Nat)
  | daoUpsert (fi : FileInfo)
  | daoTouch (p : String) (date : Int)
deriving Repr, DecidableEq

/-- Oracle environment for one synchronizer call: results of the stat
calls, the remote object found for the mapped name (none when absent or
when the listing errored, as getFileInCloud swallows listing errors), and
success flags for each fallible I/O step. -/
structure Env where
  statFile : StatRes
  cloudFile : Option DriveFile
  uploadOk : Bool
  createdId : String
  createdMime : String
  statDir : StatRes
  mkdirOk : Bool
  writeOk : Bool
  listOk : Bool
  downloadOk : Bool
  readOk : Bool
  content : List Nat
  openOk : Bool
  readBytes : List Nat
  daoPresent : Bool
  now : Int
deriving Repr

/-- localFullPath: `path.Join(LocalFolderRoot, pathName)`, modelled as
root slash path (exact for clean components). -/
def localFullPath (root p : String) : String := root ++ "/" ++ p

/-- Directory part of a path (`filepath.Dir`) for clean paths with a
separator: everything before the final slash. -/
def dirOf (p : String) : String :=
  ⟨((p.data.reverse.dropWhile (fun c => c ≠ '/')).drop 1).reverse⟩

/-- storeFileToLocal (`gdrive.go`): MkdirAll on the parent directory when
its Stat reports not-exist, then WriteFile; returns the emitted events. -/
def storeFileToLocal (env : Env) (root p : String) (b : List Nat) :
    Except GErr (List SEv) :=
  let localPath := localFullPath root p
  let mkEvs : Except GErr (List SEv) :=
    if env.statDir = StatRes.notFound then
      if env.mkdirOk then Except.ok [SEv.mkdirAll (dirOf localPath)]
      else Except.error GErr.localIO
    else Except.ok []
  match mkEvs with
  | Except.error e => Except.error e
  | Except.ok evs =>
    if env.writeOk then Except.ok (evs ++ [SEv.localWrite localPath b])
    else Except.error GErr.localIO

/-- uploadToCloud (`gdrive.go`): when the object already exists and replace
is false it is returned untouched; when absent, Create; otherwise Update
with the new content. -/
def uploadToCloud (env : Env) (p : String) (b : List Nat) (replace : Bool) :
    Except GErr (DriveFile × List SEv) :=
  match env.cloudFile with
  | some f =>
    if replace = false then Except.ok (f, [])
    else if env.uploadOk then Except.ok (f, [SEv.remoteUpdate f.id b])
    else Except.error GErr.transport
  | none =>
    if env.uploadOk then
      Except.ok (⟨env.createdId, env.createdMime⟩,
        [SEv.remoteCreate (convertToGDrive p) b])
    else Except.error GErr.transport

/-- StoreFile (`gdrive.go`): the local Stat check (which, as written,
returns ErrFileExist only when the Stat fails with an error other than
not-exist), the remote existence check, upload, local write and dao
upsert.  Returns the event trace and the new dao data. -/
def StoreFile (env : Env) (root p : String) (b : List Nat) (replace : Bool)
    (data : List FileInfo) : Except GErr (List SEv × List FileInfo) :=
  if env.statFile = StatRes.statError ∧ replace = false then
    Except.error GErr.fileExist
  else if env.cloudFile.isSome ∧ replace = false then
    Except.error GErr.fileExist
  else
    match uploadToCloud env p b replace with
    | Except.error e => Except.error e
    | Except.ok (res, upEvs) =>
      match storeFileToLocal env root p b with
      | Except.error e => Except.error e
      | Except.ok locEvs =>
        if env.daoPresent then
          Except.ok (upEvs ++ locEvs ++
              [SEv.daoUpsert ⟨res.id, env.now, p, (b.length : Int), res.mimeType⟩],
            InsertOrUpdate env.now
              ⟨res.id, env.now, p, (b.length : Int), res.mimeType⟩ data)
        else Except.ok (upEvs ++ locEvs, data)

/-- TouchFile (`gdrive.go`): a local hit touches the dao record and makes
no remote call; a miss lists the remote object, errors when absent,
downloads the content, writes it locally and upserts the record. -/
def TouchFile (env : Env) (root p : String) (data : List FileInfo) :
    Except GErr (List SEv × List FileInfo) :=
  if env.statFile = StatRes.found then
    if env.daoPresent then
      Except.ok ([SEv.daoTouch p env.now], Touch p env.now data)
    else Except.ok ([], data)
  else if env.listOk = false then Except.error GErr.transport
  else
    match env.cloudFile with
    | none => Except.error GErr.remoteNotFound
    | some f =>
      if env.downloadOk = false then Except.error GErr.transport
      else if env.readOk = false then Except.error GErr.transport
      else
        match storeFileToLocal env root p env.content with
        | Except.error e => Except.error e
        | Except.ok locEvs =>
          if env.daoPresent then
            Except.ok (SEv.remoteListQuery (convertToGDrive p) ::
                SEv.remoteDownload f.id :: (locEvs ++
                  [SEv.daoUpsert ⟨f.id, env.now, p,
                    (env.content.length : Int), f.mimeType⟩]),
              InsertOrUpdate env.now
                ⟨f.id, env.now, p, (env.content.length : Int), f.mimeType⟩ data)
          else
            Except.ok (SEv.remoteListQuery (convertToGDrive p) ::
              SEv.remoteDownload f.id :: locEvs, data)

/-- How one UploadAll worker body terminates. -/
inductive TaskOutcome where
  | completed
  | panicked
deriving Repr, DecidableEq

/-- One UploadAll worker body (`gdrive.go`): open and read the file, call
uploadToCloud with replace=false, and upsert the result into the dao.  On
an upload error the Go code logs and then still evaluates `res.Id` on the
nil result when a dao is present, which is a nil-pointer dereference:
modelled as `TaskOutcome.panicked`. -/
def uploadAllTask (env : Env) (rel : String) (data : List FileInfo) :
    TaskOutcome × List FileInfo :=
  if env.openOk = false then (TaskOutcome.completed, data)
  else
    match uploadToCloud env rel env.readBytes false with
    | Except.error _ =>
      if env.daoPresent then (TaskOutcome.panicked, data)
      else (TaskOutcome.completed, data)
    | Except.ok (res, _) =>
      if env.daoPresent then
        (TaskOutcome.completed,
          InsertOrUpdate env.now
            ⟨res.id, env.now, rel, (env.readBytes.length : Int), res.mimeType⟩ data)
      else (TaskOutcome.completed, data)

/-- Environment of a run in which every I/O step succeeds, the file is
absent both locally and remotely, and a dao is attached. -/
def envAllOk : Env :=
  { statFile := StatRes.notFound
    cloudFile := none
    uploadOk := true
    createdId := "id9"
    createdMime := "text"
    statDir := StatRes.found
    mkdirOk := true
    writeOk := true
    listOk := true
    downloadOk := true
    readOk := true
    content := [7, 8]
    openOk := true
    readBytes := [1, 2]
    daoPresent := true
    now := 7 }

/-- C1 fails on the code: with the file present locally (Stat succeeds),
absent remotely and replace=false, StoreFile does not return ErrFileExist;
it uploads, overwrites the local file, upserts metadata and reports
success.  The Stat check fires on Stat errors instead of on existence. -/
theorem C1_local_exists_not_rejected :
    StoreFile { envAllOk with statFile := StatRes.found } "root" "a.txt" [1]
        false [] =
      Except.ok ([SEv.remoteCreate "a.txt" [1],
          SEv.localWrite "root/a.txt" [1],
          SEv.daoUpsert ⟨"id9", 7, "a.txt", 1, "text"⟩],
        [⟨"id9", 7, "a.txt", 1, "text"⟩]) := rfl

/-- C3 fails on the code: an UploadAll worker whose upload errors does not
terminate normally; with a dao present it dereferences the nil result
(`res.Id`), i.e. panics, which crashes the process and every other task. -/
theorem C3_upload_failure_panics :
    uploadAllTask { envAllOk with uploadOk := false } "a.txt" [] =
      (TaskOutcome.panicked, []) := rfl

/-- Success shape of a StoreFile call: one remote upload event (a create
when no remote object existed, a content update when one did), then the
local write at root+path (preceded by at most one MkdirAll), then the dao
upsert of a record with size = byte length and timestamp = now. -/
def StoreSuccessSpec (env : Env) (root p : String) (b : List Nat)
    (tr : List SEv) (newData data : List FileInfo) : Prop :=
  ∃ upEv mkEvs fi,
    tr = upEv :: (mkEvs ++ [SEv.localWrite (localFullPath root p) b,
      SEv.daoUpsert fi]) ∧
    (env.cloudFile = none → upEv = SEv.remoteCreate (convertToGDrive p) b) ∧
    (∀ f, env.cloudFile = some f → upEv = SEv.remoteUpdate f.id b) ∧
    (mkEvs = [] ∨ mkEvs = [SEv.mkdirAll (dirOf (localFullPath root p))]) ∧
    fi.size = (b.length : Int) ∧ fi.lastAccess = env.now ∧ fi.filepath = p ∧
    newData = InsertOrUpdate env.now fi data

/-- C6: every successful store performs the remote upload first (create
when absent, content replace when present), then the local write (creating
the parent directory when needed), then the metadata upsert with
size = byte length and timestamp = now. -/
theorem uploadToCloud_ok_spec {env : Env} {p : String} {b : List Nat}
    {replace : Bool} {res : DriveFile} {upEvs : List SEv}
    (hsome : ¬(env.cloudFile.isSome = true ∧ replace = false))
    (hu : uploadToCloud env p b replace = Except.ok (res, upEvs)) :
    (env.cloudFile = none →
      res = ⟨env.createdId, env.createdMime⟩ ∧
        upEvs = [SEv.remoteCreate (convertToGDrive p) b]) ∧
    (∀ f, env.cloudFile = some f →
      res = f ∧ upEvs = [SEv.remoteUpdate f.id b]) := by
  constructor
  · intro hcloud
    cases hup : env.uploadOk
    · simp [uploadToCloud, hcloud, hup] at hu
    · simp [uploadToCloud, hcloud, hup] at hu
      exact ⟨hu.1.symm, hu.2.symm⟩
  · intro f hcloud
    have hrepl : replace = true := by
      cases hr : replace
      · exact absurd ⟨by simp [hcloud], hr⟩ hsome
      · rfl
    cases hup : env.uploadOk
    · simp [uploadToCloud, hcloud, hrepl, hup] at hu
    · simp [uploadToCloud, hcloud, hrepl, hup] at hu
      exact ⟨hu.1.symm, hu.2.symm⟩

theorem storeFileToLocal_ok_spec {env : Env} {root p : String} {b : List Nat}
    {locEvs : List SEv}
    (h : storeFileToLocal env root p b = Except.ok locEvs) :
    locEvs = (if env.statDir = StatRes.notFound then
        [SEv.mkdirAll (dirOf (localFullPath root p))] else []) ++
      [SEv.localWrite (localFullPath root p) b] := by
  unfold storeFileToLocal at h
  by_cases h1 : env.statDir = StatRes.notFound
  · cases h2 : env.mkdirOk
    · simp [h1, h2] at h
    · cases h3 : env.writeOk
      · simp [h1, h2, h3] at h
      · simp [h1, h2, h3] at h
        simp [h1, ← h]
  · cases h3 : env.writeOk
    · simp [h1, h3] at h
    · simp [h1, h3] at h
      simp [h1, ← h]

/-- C6: every successful store performs the remote upload first (create
when absent, content replace when present), then the local write (creating
the parent directory when needed), then the metadata upsert with
size = byte length and timestamp = now. -/
theorem C6_store_ordering (env : Env) (root p : String) (b : List Nat)
    (replace : Bool) (data : List FileInfo) (tr : List SEv)
    (nd : List FileInfo) (hdao : env.daoPresent = true)
    (h : StoreFile env root p b replace data = Except.ok (tr, nd)) :
    StoreSuccessSpec env root p b tr nd data := by
  unfold StoreFile at h
  split at h
  · exact absurd h (by simp)
  split at h
  · exact absurd h (by simp)
  rename_i hstat hsome
  cases hu : uploadToCloud env p b replace with
  | error e => rw [hu] at h; exact absurd h (by simp)
  | ok pr =>
    rcases pr with ⟨res, upEvs⟩
    rw [hu] at h
    cases hsl : storeFileToLocal env root p b with
    | error e => rw [hsl] at h; exact absurd h (by simp)
    | ok locEvs =>
      rw [hsl] at h
      simp [hdao] at h
      obtain ⟨htr, hnd⟩ := h
      have hloc := storeFileToLocal_ok_spec hsl
      have hupl := uploadToCloud_ok_spec hsome hu
      cases hcloud : env.cloudFile with
      | none =>
        obtain ⟨hres, hupe⟩ := hupl.1 hcloud
        refine ⟨SEv.remoteCreate (convertToGDrive p) b,
          (if env.statDir = StatRes.notFound then
            [SEv.mkdirAll (dirOf (localFullPath root p))] else []),
          ⟨env.createdId, env.now, p, (b.length : Int), env.createdMime⟩,
          ?_, fun _ => rfl, ?_, ?_, rfl, rfl, rfl, ?_⟩
        · rw [← htr, hupe, hloc, hres]
          simp
        · intro g hg
          rw [hcloud] at hg
          cases hg
        · by_cases hdir : env.statDir = StatRes.notFound
          · right; rw [if_pos hdir]
          · left; rw [if_neg hdir]
        · rw [← hnd, hres]
      | some f =>
        obtain ⟨hres, hupe⟩ := hupl.2 f hcloud
        refine ⟨SEv.remoteUpdate f.id b,
          (if env.statDir = StatRes.notFound then
            [SEv.mkdirAll (dirOf (localFullPath root p))] else []),
          ⟨f.id, env.now, p, (b.length : Int), f.mimeType⟩,
          ?_, ?_, ?_, ?_, rfl, rfl, rfl, ?_⟩
        · rw [← htr, hupe, hloc, hres]
          simp
        · intro hc
          rw [hcloud] at hc
          cases hc
        · intro g hg
          rw [hcloud] at hg
          cases hg
          rfl
        · by_cases hdir : env.statDir = StatRes.notFound
          · right; rw [if_pos hdir]
          · left; rw [if_neg hdir]
        · rw [← hnd, hres]

/-- Concrete instantiation of `C6_store_ordering`. -/
theorem C6_store_ordering_witness :
    envAllOk.daoPresent = true ∧
    StoreSuccessSpec envAllOk "root" "a/b" [1, 2]
      [SEv.remoteCreate "a#b" [1, 2], SEv.localWrite "root/a/b" [1, 2],
        SEv.daoUpsert ⟨"id9", 7, "a/b", 2, "text"⟩]
      [⟨"id9", 7, "a/b", 2, "text"⟩] [] :=
  ⟨rfl, C6_store_ordering envAllOk "root" "a/b" [1, 2] false []
    [SEv.remoteCreate "a#b" [1, 2], SEv.localWrite "root/a/b" [1, 2],
      SEv.daoUpsert ⟨"id9", 7, "a/b", 2, "text"⟩]
    [⟨"id9", 7, "a/b", 2, "text"⟩] rfl rfl⟩

/-- Behaviour of a fetch-or-touch call: a local hit touches the record and
returns with no remote event and no local write; a miss with no remote
object fails with RemoteFileNotFound; a miss with a remote object
downloads it, writes it locally and upserts a record with size = length of
the downloaded bytes and timestamp = now. -/
def TouchSpec (env : Env) (root p : String) (data : List FileInfo) : Prop :=
  (env.statFile = StatRes.found →
    TouchFile env root p data =
      Except.ok ([SEv.daoTouch p env.now], Touch p env.now data)) ∧
  (env.statFile ≠ StatRes.found → env.listOk = true → env.cloudFile = none →
    TouchFile env root p data = Except.error GErr.remoteNotFound) ∧
  (∀ f, env.statFile ≠ StatRes.found → env.listOk = true →
    env.cloudFile = some f → env.downloadOk = true → env.readOk = true →
    env.statDir ≠ StatRes.notFound → env.writeOk = true →
    TouchFile env root p data =
      Except.ok ([SEv.remoteListQuery (convertToGDrive p),
          SEv.remoteDownload f.id,
          SEv.localWrite (localFullPath root p) env.content,
          SEv.daoUpsert ⟨f.id, env.now, p, (env.content.length : Int),
            f.mimeType⟩],
        InsertOrUpdate env.now
          ⟨f.id, env.now, p, (env.content.length : Int), f.mimeType⟩ data))

/-- C7: fetch-or-touch updates lastAccess and returns with no remote call
and no local write when the file exists locally; otherwise it fails with
RemoteFileNotFound when no remote object matches, and else downloads the
content, writes it locally and upserts a record with size = downloaded
length and timestamp = now. -/
theorem C7_touch_semantics (env : Env) (root p : String)
    (data : List FileInfo) (hdao : env.daoPresent = true) :
    TouchSpec env root p data := by
  refine ⟨?_, ?_, ?_⟩
  · intro hstat
    simp [TouchFile, hstat, hdao]
  · intro hstat hlist hcloud
    simp [TouchFile, hstat, hlist, hcloud]
  · intro f hstat hlist hcloud hdl hread hdir hwrite
    simp only [TouchFile, if_neg hstat, hlist]
    simp only [Bool.true_eq_false, if_false, hcloud, hdl, hread]
    simp only [storeFileToLocal, if_neg hdir, hwrite, if_true]
    simp [hdao]

/-- Concrete instantiation of `C7_touch_semantics`. -/
theorem C7_touch_semantics_witness :
    envAllOk.daoPresent = true ∧ TouchSpec envAllOk "root" "a" [] :=
  ⟨rfl, C7_touch_semantics envAllOk "root" "a" [] rfl⟩

/-- Side effects of the eviction sweeper. -/
inductive Ev where
  | daoDelete (p : String)
  | fsRemove (p : String)
deriving Repr, DecidableEq

/-- Event trace of deleting the given records in order: for each record
the dao delete comes first and the local file removal second. -/
def traceOf : List FileInfo → List Ev
  | [] => []
  | f :: rest =>
    Ev.daoDelete f.filepath :: Ev.fsRemove f.filepath :: traceOf rest

/-- Greedy accumulation loop of shouldRemove (`gdrive.go`): add each
candidate's size and keep the candidate, stopping right after the first
candidate that makes the running sum strictly exceed diff. -/
def selectLoop (diff : Int) : Int → List FileInfo → Int × List FileInfo
  | acc, [] => (acc, [])
  | acc, f :: rest =>
    let acc2 := acc + f.size
    if diff < acc2 then (acc2, [f])
    else
      let r := selectLoop diff acc2 rest
      (r.1, f :: r.2)

/-- The candidates shouldRemove accumulates, with their total size. -/
def selectToRemove (diff : Int) (list : List FileInfo) : Int × List FileInfo :=
  selectLoop diff 0 list

/-- Deletion loop of shouldRemove: for each selected record, dao.Delete
first and os.Remove second, stopping the cycle at the first failure.
Returns the new dao data, the events performed, and whether the loop ran
to completion. -/
def removeLoop (osOk : String → Bool) :
    List FileInfo → List FileInfo → List FileInfo × List Ev × Bool
  | [], data => (data, [], true)
  | rem :: rest, data =>
    match Delete rem.filepath data with
    | none => (data, [], false)
    | some data2 =>
      if osOk rem.filepath then
        let r := removeLoop osOk rest data2
        (r.1, Ev.daoDelete rem.filepath :: Ev.fsRemove rem.filepath :: r.2.1,
          r.2.2)
      else (data2, [Ev.daoDelete rem.filepath], false)

/-- Result of one shouldRemove cycle: the returned boolean (fast retry),
the dao data afterwards, the events performed, and whether the deletion
loop ran without an error. -/
structure SweepResult where
  retry : Bool
  data : List FileInfo
  trace : List Ev
  ok : Bool
deriving Repr, DecidableEq

/-- shouldRemove (`gdrive.go`): one sweep cycle over the memory dao.  When
the total size exceeds the budget it queries the ten oldest records
(which sorts the dao data in place), greedily selects candidates until
their accumulated size exceeds the deficit, deletes each of them (dao
record first, local file second, aborting on the first failure), and
returns true exactly when the accumulated size did not cover the
deficit. -/
def shouldRemove (maxSize : Int) (osOk : String → Bool)
    (data : List FileInfo) : SweepResult :=
  let total := TotalSize data
  if maxSize < total then
    let sorted := sortByAccess data
    let list := sorted.take 10
    let diff := total - maxSize
    let sel := selectToRemove diff list
    let r := removeLoop osOk sel.2 sorted
    if r.2.2 = false then ⟨false, r.1, r.2.1, false⟩
    else if sel.1 < diff then ⟨true, r.1, r.2.1, true⟩
    else ⟨false, r.1, r.2.1, true⟩
  else ⟨false, data, [], true⟩

/-- Events the Start loop reacts to. -/
inductive TickEvent where
  | tick
  | cancel
deriving Repr, DecidableEq

/-- State of the Start loop: the pending timer interval in seconds (60 =
idle, 1 = draining) and the dao data. -/
structure LoopState where
  interval : Nat
  dao : List FileInfo
deriving Repr, DecidableEq

/-- One iteration of the Start select loop (`gdrive.go`): a context
cancellation ends the loop; a timer tick runs shouldRemove and resets the
timer to one second when it returned true, else to one minute. -/
def startStep (maxSize : Int) (osOk : String → Bool) (e : TickEvent)
    (s : LoopState) : Option LoopState :=
  match e with
  | TickEvent.cancel => none
  | TickEvent.tick =>
    let r := shouldRemove maxSize osOk s.dao
    some ⟨if r.retry then 1 else 60, r.data⟩

/-- Draining condition stated semantically: the cycle found the total over
budget, ran its deletions to completion, and the accumulated size of the
selected batch stayed strictly below the deficit. -/
def sweepNeedsRetry (maxSize : Int) (osOk : String → Bool)
    (data : List FileInfo) : Bool :=
  decide (maxSize < TotalSize data) &&
    (shouldRemove maxSize osOk data).ok &&
    decide ((selectToRemove (TotalSize data - maxSize)
      (QueryOldest 10 data)).1 < TotalSize data - maxSize)

theorem retry_eq (m : Int) (osOk : String → Bool) (data : List FileInfo) :
    (shouldRemove m osOk data).retry = sweepNeedsRetry m osOk data := by
  by_cases h1 : m < TotalSize data
  · by_cases h2 : (removeLoop osOk
        (selectToRemove (TotalSize data - m) ((sortByAccess data).take 10)).2
        (sortByAccess data)).2.2 = false
    · simp [shouldRemove, sweepNeedsRetry, QueryOldest, h1, h2]
    · by_cases h3 : (selectToRemove (TotalSize data - m)
          ((sortByAccess data).take 10)).1 < TotalSize data - m
      · simp [shouldRemove, sweepNeedsRetry, QueryOldest, h1, h2, h3]
      · simp [shouldRemove, sweepNeedsRetry, QueryOldest, h1, h2, h3]
  · simp [shouldRemove, sweepNeedsRetry, h1]

/-- C5 amended: the loop has exactly the idle (one minute) and draining
(one second) ticking modes; the draining interval is chosen exactly after
a cycle that found the total over budget, completed its deletions, and
accumulated strictly less than the deficit; every other tick (total within
budget, aborted cycle, or accumulated size at least the deficit) returns
to the idle interval; and the loop ends exactly on a cancellation
event. -/
theorem C5_loop_modes (m : Int) (osOk : String → Bool) (e : TickEvent)
    (s : LoopState) :
    startStep m osOk e s =
      match e with
      | TickEvent.cancel => none
      | TickEvent.tick =>
        some ⟨if sweepNeedsRetry m osOk s.dao then 1 else 60,
          (shouldRemove m osOk s.dao).data⟩ := by
  cases e
  · simp [startStep, retry_eq]
  · rfl

/-- Function making every os.Remove succeed. -/
def allOk : String → Bool := fun _ => true

/-- Four records of size one, in insertion order of their access times. -/
def dataFour : List FileInfo :=
  [⟨"i1", 0, "p1", 1, ""⟩, ⟨"i2", 1, "p2", 1, ""⟩,
   ⟨"i3", 2, "p3", 1, ""⟩, ⟨"i4", 3, "p4", 1, ""⟩]

/-- C5 fails as stated at the boundary: with budget 0 and four records of
size one, the completed cycle accumulates exactly the deficit (4, which
"does not exceed" it), yet the next tick is scheduled at the idle minute,
not at the draining second: the code requires the removed size to be
strictly below the deficit to keep draining. -/
theorem C5_counterexample :
    TotalSize dataFour - 0 = 4 ∧
    (shouldRemove 0 allOk dataFour).ok = true ∧
    (selectToRemove (TotalSize dataFour - 0) (QueryOldest 10 dataFour)).1 ≤
      TotalSize dataFour - 0 ∧
    startStep 0 allOk TickEvent.tick ⟨60, dataFour⟩ = some ⟨60, []⟩ := by
  decide

/-- Eleven records of size one. -/
def dataEleven : List FileInfo :=
  [⟨"i1", 0, "q01", 1, ""⟩, ⟨"i2", 1, "q02", 1, ""⟩,
   ⟨"i3", 2, "q03", 1, ""⟩, ⟨"i4", 3, "q04", 1, ""⟩,
   ⟨"i5", 4, "q05", 1, ""⟩, ⟨"i6", 5, "q06", 1, ""⟩,
   ⟨"i7", 6, "q07", 1, ""⟩, ⟨"i8", 7, "q08", 1, ""⟩,
   ⟨"i9", 8, "q09", 1, ""⟩, ⟨"i10", 9, "q10", 1, ""⟩,
   ⟨"i11", 10, "q11", 1, ""⟩]

/-- C2 fails as stated: with budget 0 and eleven records of size one, the
cycle completes after removing the whole batch of ten, the store held at
least ten entries, and the total afterwards (1) still exceeds the
budget. -/
theorem C2_counterexample :
    0 < TotalSize dataEleven ∧
    (shouldRemove 0 allOk dataEleven).ok = true ∧
    ¬(TotalSize (shouldRemove 0 allOk dataEleven).data ≤ 0 ∨
      dataEleven.length < 10) := by
  decide

theorem sizeSum_nil : sizeSum [] = 0 := rfl

theorem sizeSum_cons (f : FileInfo) (l : List FileInfo) :
    sizeSum (f :: l) = f.size + sizeSum l := by
  simp [sizeSum]

theorem sizeSum_append (l₁ l₂ : List FileInfo) :
    sizeSum (l₁ ++ l₂) = sizeSum l₁ + sizeSum l₂ := by
  simp [sizeSum]

theorem sizeSum_perm {l₁ l₂ : List FileInfo} (h : l₁.Perm l₂) :
    sizeSum l₁ = sizeSum l₂ :=
  List.Perm.sum_eq (h.map FileInfo.size)

theorem sizeSum_sortByAccess (data : List FileInfo) :
    sizeSum (sortByAccess data) = sizeSum data :=
  sizeSum_perm (List.perm_insertionSort accessLe data)

theorem sizeSum_take_drop (l : List FileInfo) (k : Nat) :
    sizeSum (l.take k) + sizeSum (l.drop k) = sizeSum l := by
  rw [← sizeSum_append, List.take_append_drop]

theorem selectLoop_total (diff : Int) :
    ∀ (acc : Int) (l : List FileInfo),
      (selectLoop diff acc l).1 = acc + sizeSum (selectLoop diff acc l).2 := by
  intro acc l
  induction l generalizing acc with
  | nil => simp [selectLoop, sizeSum]
  | cons f rest ih =>
    by_cases h : diff < acc + f.size
    · simp [selectLoop, h, sizeSum_cons, sizeSum_nil]
    · simp only [selectLoop, if_neg h]
      rw [ih (acc + f.size), sizeSum_cons]
      ring

theorem selectLoop_take (diff : Int) :
    ∀ (acc : Int) (l : List FileInfo), ∃ k, k ≤ l.length ∧
      (selectLoop diff acc l).2 = l.take k := by
  intro acc l
  induction l generalizing acc with
  | nil => exact ⟨0, Nat.le_refl 0, rfl⟩
  | cons f rest ih =>
    by_cases h : diff < acc + f.size
    · refine ⟨1, by simp, ?_⟩
      simp [selectLoop, h]
    · obtain ⟨k, hk, he⟩ := ih (acc + f.size)
      refine ⟨k + 1, by simpa using hk, ?_⟩
      simp [selectLoop, h, he]

theorem selectLoop_all (diff : Int) :
    ∀ (acc : Int) (l : List FileInfo),
      (selectLoop diff acc l).1 ≤ diff → (selectLoop diff acc l).2 = l := by
  intro acc l
  induction l generalizing acc with
  | nil => intro _; rfl
  | cons f rest ih =>
    intro hle
    by_cases h : diff < acc + f.size
    · simp only [selectLoop, if_pos h] at hle
      omega
    · simp only [selectLoop, if_neg h] at hle ⊢
      rw [ih (acc + f.size) hle]

theorem selectLoop_over_or_all (diff : Int) :
    ∀ (acc : Int) (l : List FileInfo),
      diff < (selectLoop diff acc l).1 ∨ (selectLoop diff acc l).2 = l := by
  intro acc l
  induction l generalizing acc with
  | nil => right; rfl
  | cons f rest ih =>
    by_cases h : diff < acc + f.size
    · left; simp [selectLoop, h]
    · rcases ih (acc + f.size) with h2 | h2
      · left; simpa [selectLoop, h] using h2
      · right; simp [selectLoop, h, h2]

theorem selectLoop_partial_le (diff : Int) :
    ∀ (acc : Int) (l : List FileInfo), acc ≤ diff →
      ∀ k, k < (selectLoop diff acc l).2.length →
        acc + sizeSum ((selectLoop diff acc l).2.take k) ≤ diff := by
  intro acc l
  induction l generalizing acc with
  | nil => intro hacc k hk; simp [selectLoop] at hk
  | cons f rest ih =>
    intro hacc k hk
    by_cases h : diff < acc + f.size
    · simp only [selectLoop, if_pos h] at hk ⊢
      have hk0 : k = 0 := by simpa using Nat.lt_one_iff.mp (by simpa using hk)
      subst hk0
      simpa [sizeSum_nil] using hacc
    · simp only [selectLoop, if_neg h] at hk ⊢
      cases k with
      | zero => simpa [sizeSum_nil] using hacc
      | succ k' =>
        have hk' : k' < (selectLoop diff (acc + f.size) rest).2.length := by
          simpa using hk
        have hstep := ih (acc + f.size) (le_of_not_lt h) k' hk'
        simp only [List.take_succ_cons, sizeSum_cons]
        linarith

theorem Delete_head (d : FileInfo) (rest : List FileInfo) :
    Delete d.filepath (d :: rest) = some rest := by
  simp [Delete]

theorem removeLoop_take (osOk : String → Bool) :
    ∀ (l : List FileInfo) (k : Nat),
      (∀ f ∈ l.take k, osOk f.filepath = true) →
      removeLoop osOk (l.take k) l = (l.drop k, traceOf (l.take k), true) := by
  intro l
  induction l with
  | nil => intro k _; simp [removeLoop, traceOf]
  | cons d rest ih =>
    intro k h
    cases k with
    | zero => simp [removeLoop, traceOf]
    | succ k' =>
      have hosd : osOk d.filepath = true := h d (by simp)
      have hrest : ∀ f ∈ rest.take k', osOk f.filepath = true := by
        intro f hf
        exact h f (by simp [hf])
      simp [removeLoop, Delete_head, hosd, traceOf, ih k' hrest]

theorem removeLoop_abort (osOk : String → Bool) :
    ∀ (l : List FileInfo) (k i : Nat), i < k → k ≤ l.length →
      (∀ f ∈ l.take i, osOk f.filepath = true) →
      osOk ((l.getD i default).filepath) = false →
      removeLoop osOk (l.take k) l =
        (l.drop (i + 1),
          traceOf (l.take i) ++ [Ev.daoDelete ((l.getD i default).filepath)],
          false) := by
  intro l
  induction l with
  | nil =>
    intro k i hik hkl _ _
    simp at hkl
    omega
  | cons d rest ih =>
    intro k i hik hkl hall hbad
    cases k with
    | zero => omega
    | succ k' =>
      cases i with
      | zero =>
        have hbad' : osOk d.filepath = false := by simpa using hbad
        simp [removeLoop, Delete_head, hbad', traceOf]
      | succ i' =>
        have hosd : osOk d.filepath = true := hall d (by simp)
        have hall' : ∀ f ∈ rest.take i', osOk f.filepath = true := by
          intro f hf
          exact hall f (by simp [hf])
        have hbad' : osOk ((rest.getD i' default).filepath) = false := by
          simpa using hbad
        have hrec := ih k' i' (by omega) (by simpa using hkl) hall' hbad'
        simp [removeLoop, Delete_head, hosd, traceOf, hrec]

theorem osOk_take_cases (osOk : String → Bool) :
    ∀ (l : List FileInfo) (k : Nat),
      (∀ f ∈ l.take k, osOk f.filepath = true) ∨
      (∃ i, i < k ∧ i < l.length ∧
        (∀ f ∈ l.take i, osOk f.filepath = true) ∧
        osOk ((l.getD i default).filepath) = false) := by
  intro l
  induction l with
  | nil => intro k; left; simp
  | cons d rest ih =>
    intro k
    cases k with
    | zero => left; simp
    | succ k' =>
      cases hosd : osOk d.filepath with
      | false =>
        right
        exact ⟨0, by omega, by simp, by simp, by simpa using hosd⟩
      | true =>
        rcases ih k' with h | ⟨i, hik, hil, hall, hbad⟩
        · left
          intro f hf
          simp only [List.take_succ_cons, List.mem_cons] at hf
          rcases hf with hf | hf
          · subst hf; exact hosd
          · exact h f hf
        · right
          refine ⟨i + 1, by omega, by simpa using Nat.succ_lt_succ hil,
            ?_, by simpa using hbad⟩
          intro f hf
          simp only [List.take_succ_cons, List.mem_cons] at hf
          rcases hf with hf | hf
          · subst hf; exact hosd
          · exact hall f hf

theorem getD_take {l : List FileInfo} :
    ∀ {k i : Nat}, i < k → ∀ d : FileInfo,
      (l.take k).getD i d = l.getD i d := by
  induction l with
  | nil => intro k i _ d; simp
  | cons x rest ih =>
    intro k i hik d
    cases k with
    | zero => omega
    | succ k' =>
      cases i with
      | zero => simp
      | succ i' =>
        simp only [List.take_succ_cons, List.getD_cons_succ]
        exact ih (by omega) d

theorem pairwise_take_drop {R : FileInfo → FileInfo → Prop}
    {l : List FileInfo} (h : List.Pairwise R l) (k : Nat) :
    ∀ f ∈ l.take k, ∀ g ∈ l.drop k, R f g := by
  intro f hf g hg
  have hsplit : List.Pairwise R (l.take k ++ l.drop k) := by
    rwa [List.take_append_drop]
  exact (List.pairwise_append.mp hsplit).2.2 f hf g hg

theorem shouldRemove_components (m : Int) (osOk : String → Bool)
    (data : List FileInfo) (h1 : m < TotalSize data) :
    (shouldRemove m osOk data).data =
      (removeLoop osOk (selectToRemove (TotalSize data - m)
        ((sortByAccess data).take 10)).2 (sortByAccess data)).1 ∧
    (shouldRemove m osOk data).trace =
      (removeLoop osOk (selectToRemove (TotalSize data - m)
        ((sortByAccess data).take 10)).2 (sortByAccess data)).2.1 ∧
    (shouldRemove m osOk data).ok =
      (removeLoop osOk (selectToRemove (TotalSize data - m)
        ((sortByAccess data).take 10)).2 (sortByAccess data)).2.2 := by
  by_cases h2 : (removeLoop osOk (selectToRemove (TotalSize data - m)
      ((sortByAccess data).take 10)).2 (sortByAccess data)).2.2 = false
  · simp [shouldRemove, h1, h2]
  · by_cases h3 : (selectToRemove (TotalSize data - m)
        ((sortByAccess data).take 10)).1 < TotalSize data - m
    · simp [shouldRemove, h1, h2, h3]
    · simp [shouldRemove, h1, h2, h3]

theorem QueryOldest_eq (n : Nat) (data : List FileInfo) :
    QueryOldest n data = (sortByAccess data).take n := rfl

theorem sorted_sortByAccess (data : List FileInfo) :
    List.Pairwise accessLe (sortByAccess data) :=
  List.sorted_insertionSort accessLe data

theorem selectToRemove_total (diff : Int) (l : List FileInfo) :
    (selectToRemove diff l).1 = sizeSum (selectToRemove diff l).2 := by
  have h := selectLoop_total diff 0 l
  unfold selectToRemove
  simpa using h

theorem selectToRemove_take (diff : Int) (l : List FileInfo) :
    ∃ k, k ≤ l.length ∧ (selectToRemove diff l).2 = l.take k := by
  unfold selectToRemove
  exact selectLoop_take diff 0 l

theorem selectToRemove_all (diff : Int) (l : List FileInfo)
    (h : (selectToRemove diff l).1 ≤ diff) : (selectToRemove diff l).2 = l := by
  unfold selectToRemove at h ⊢
  exact selectLoop_all diff 0 l h

theorem selectToRemove_over_or_all (diff : Int) (l : List FileInfo) :
    diff < (selectToRemove diff l).1 ∨ (selectToRemove diff l).2 = l := by
  unfold selectToRemove
  exact selectLoop_over_or_all diff 0 l

theorem selectToRemove_partial (diff : Int) (l : List FileInfo)
    (hd : 0 ≤ diff) (k : Nat) (hk : k < (selectToRemove diff l).2.length) :
    sizeSum ((selectToRemove diff l).2.take k) ≤ diff := by
  unfold selectToRemove at hk ⊢
  have h := selectLoop_partial_le diff 0 l hd k hk
  simpa using h

/-- Either the sweep brought the total within budget, or the greedy
selection consumed the entire batch and its accumulated size did not
exceed the deficit. -/
def SweepBudgetSpec (m : Int) (osOk : String → Bool)
    (data : List FileInfo) : Prop :=
  TotalSize (shouldRemove m osOk data).data ≤ m ∨
    ((selectToRemove (TotalSize data - m) (QueryOldest 10 data)).2 =
        QueryOldest 10 data ∧
      (selectToRemove (TotalSize data - m) (QueryOldest 10 data)).1 ≤
        TotalSize data - m)

/-- C2 amended: after a sweep cycle that found the total over budget and
completed its deletions, either the total is now within budget, or the
cycle removed the entire batch of at most ten oldest candidates and their
accumulated size did not exceed the deficit (batch exhaustion, which can
happen even when the store held ten or more entries). -/
theorem C2_sweep_budget (m : Int) (osOk : String → Bool)
    (data : List FileInfo) (h1 : m < TotalSize data)
    (h2 : (shouldRemove m osOk data).ok = true) :
    SweepBudgetSpec m osOk data := by
  by_cases hc : (selectToRemove (TotalSize data - m)
      (QueryOldest 10 data)).1 ≤ TotalSize data - m
  · right
    exact ⟨selectToRemove_all _ _ hc, hc⟩
  · left
    push_neg at hc
    rw [QueryOldest_eq] at hc
    obtain ⟨hdata, htrace, hok⟩ := shouldRemove_components m osOk data h1
    obtain ⟨k0, hk0, hsel⟩ := selectToRemove_take (TotalSize data - m)
      ((sortByAccess data).take 10)
    have hsel2 : (selectToRemove (TotalSize data - m)
        ((sortByAccess data).take 10)).2 =
        (sortByAccess data).take (min k0 10) := by
      rw [hsel, List.take_take]
    have hK : min k0 10 ≤ (sortByAccess data).length := by
      have hbl : ((sortByAccess data).take 10).length =
          min 10 (sortByAccess data).length := List.length_take _ _
      omega
    rcases osOk_take_cases osOk (sortByAccess data) (min k0 10) with
      hall | ⟨i, hik, hil, halli, hbad⟩
    · have hrem := removeLoop_take osOk (sortByAccess data) (min k0 10) hall
      have hdata2 : (shouldRemove m osOk data).data =
          (sortByAccess data).drop (min k0 10) := by
        rw [hdata, hsel2, hrem]
      have e1 : TotalSize (shouldRemove m osOk data).data =
          sizeSum ((sortByAccess data).drop (min k0 10)) := by
        rw [hdata2, totalSize_eq_sizeSum]
      have e2 := sizeSum_take_drop (sortByAccess data) (min k0 10)
      have e3 := sizeSum_sortByAccess data
      have e4 : sizeSum ((sortByAccess data).take (min k0 10)) =
          (selectToRemove (TotalSize data - m)
            ((sortByAccess data).take 10)).1 := by
        rw [← hsel2, ← selectToRemove_total]
      have e5 := totalSize_eq_sizeSum data
      linarith
    · exfalso
      have hrem := removeLoop_abort osOk (sortByAccess data) (min k0 10) i
        hik hK halli hbad
      rw [hok, hsel2, hrem] at h2
      simp at h2

/-- Concrete instantiation of `C2_sweep_budget`. -/
theorem C2_sweep_budget_witness :
    ((0 : Int) < TotalSize [fiA]) ∧
    ((shouldRemove 0 allOk [fiA]).ok = true) ∧
    SweepBudgetSpec 0 allOk [fiA] :=
  ⟨by decide, by decide, C2_sweep_budget 0 allOk [fiA] (by decide) (by decide)⟩

/-- Candidate batch of one sweep cycle: the ten oldest records. -/
def sweepBatch (data : List FileInfo) : List FileInfo :=
  (sortByAccess data).take 10

/-- Candidates the cycle accumulates for removal. -/
def sweepSel (m : Int) (data : List FileInfo) : List FileInfo :=
  (selectToRemove (TotalSize data - m) (sweepBatch data)).2

/-- Accumulated size of the candidates selected for removal. -/
def sweepSelTotal (m : Int) (data : List FileInfo) : Int :=
  (selectToRemove (TotalSize data - m) (sweepBatch data)).1

/-- Full description of one over-budget sweep cycle: the batch is ordered
by ascending lastAccess; the selection is a prefix of the batch of at most
ten; its accumulated size is the sum of the selected sizes; every proper
prefix of the selection stays within the deficit; the selection either
strictly exceeds the deficit or is the whole batch; when no deletion
fails, the cycle deletes exactly the selection, dao record first and local
file second for each candidate; when the file removal of the i-th
candidate fails, the cycle stops there, keeping the earlier deletions and
the dao deletion of candidate i; and no removed candidate is newer than a
kept one. -/
def SweepLRUSpec (m : Int) (osOk : String → Bool)
    (data : List FileInfo) : Prop :=
  List.Pairwise accessLe (sweepBatch data) ∧
  (∃ k, k ≤ 10 ∧ sweepSel m data = (sweepBatch data).take k) ∧
  sweepSelTotal m data = sizeSum (sweepSel m data) ∧
  (∀ k, k < (sweepSel m data).length →
    sizeSum ((sweepSel m data).take k) ≤ TotalSize data - m) ∧
  (TotalSize data - m < sweepSelTotal m data ∨
    sweepSel m data = sweepBatch data) ∧
  ((∀ f ∈ sweepSel m data, osOk f.filepath = true) →
    (shouldRemove m osOk data).ok = true ∧
    (shouldRemove m osOk data).data =
      (sortByAccess data).drop (sweepSel m data).length ∧
    (shouldRemove m osOk data).trace = traceOf (sweepSel m data)) ∧
  (∀ i, i < (sweepSel m data).length →
    (∀ f ∈ (sweepSel m data).take i, osOk f.filepath = true) →
    osOk (((sweepSel m data).getD i default).filepath) = false →
    (shouldRemove m osOk data).ok = false ∧
    (shouldRemove m osOk data).data = (sortByAccess data).drop (i + 1) ∧
    (shouldRemove m osOk data).trace =
      traceOf ((sweepSel m data).take i) ++
        [Ev.daoDelete (((sweepSel m data).getD i default).filepath)]) ∧
  (∀ k, ∀ f ∈ (sweepBatch data).take k, ∀ g ∈ (sweepBatch data).drop k,
    accessLe f g)

/-- C4: in every over-budget sweep cycle, the removal set is a greedy
earliest-first prefix of the ten-oldest batch — stopping with the first
candidate that pushes the running sum strictly over the deficit — deleted
dao record first and local file second, aborting on the first failure
without rolling back, and never removing a candidate newer than one it
kept. -/
theorem C4_sweep_cycle (m : Int) (osOk : String → Bool)
    (data : List FileInfo) (h1 : m < TotalSize data) :
    SweepLRUSpec m osOk data := by
  have hpair : List.Pairwise accessLe (sweepBatch data) :=
    List.Pairwise.sublist (List.take_sublist 10 (sortByAccess data))
      (sorted_sortByAccess data)
  obtain ⟨k0, hk0, hsel⟩ := selectToRemove_take (TotalSize data - m)
    (sweepBatch data)
  have hbl : (sweepBatch data).length = min 10 (sortByAccess data).length := by
    unfold sweepBatch
    exact List.length_take _ _
  have hK : min k0 10 ≤ (sortByAccess data).length := by omega
  have hselK : sweepSel m data = (sortByAccess data).take (min k0 10) := by
    unfold sweepSel
    rw [hsel]
    unfold sweepBatch
    rw [List.take_take]
  have hlen : (sweepSel m data).length = min k0 10 := by
    rw [hselK, List.length_take]
    omega
  obtain ⟨hdata, htrace, hok⟩ := shouldRemove_components m osOk data h1
  have hdata' : (shouldRemove m osOk data).data =
      (removeLoop osOk (sweepSel m data) (sortByAccess data)).1 := hdata
  have htrace' : (shouldRemove m osOk data).trace =
      (removeLoop osOk (sweepSel m data) (sortByAccess data)).2.1 := htrace
  have hok' : (shouldRemove m osOk data).ok =
      (removeLoop osOk (sweepSel m data) (sortByAccess data)).2.2 := hok
  refine ⟨hpair, ⟨k0, by omega, hsel⟩, selectToRemove_total _ _, ?_, ?_,
    ?_, ?_, ?_⟩
  · intro k hk
    exact selectToRemove_partial _ _ (by omega) k hk
  · exact selectToRemove_over_or_all _ _
  · intro hall
    have hall' : ∀ f ∈ (sortByAccess data).take (min k0 10),
        osOk f.filepath = true := by
      rw [← hselK]; exact hall
    have hrem := removeLoop_take osOk (sortByAccess data) (min k0 10) hall'
    rw [← hselK] at hrem
    refine ⟨?_, ?_, ?_⟩
    · rw [hok', hrem]
    · rw [hdata', hrem, hlen]
    · rw [htrace', hrem]
  · intro i hi halli hbadi
    have hiK : i < min k0 10 := by omega
    have htakei : (sweepSel m data).take i = (sortByAccess data).take i := by
      rw [hselK, List.take_take]
      congr 1
      omega
    have hgetD : (sweepSel m data).getD i default =
        (sortByAccess data).getD i default := by
      rw [hselK]
      exact getD_take hiK default
    have halli' : ∀ f ∈ (sortByAccess data).take i, osOk f.filepath = true := by
      rw [← htakei]; exact halli
    have hbadi' : osOk (((sortByAccess data).getD i default).filepath)
        = false := by
      rw [← hgetD]; exact hbadi
    have hrem := removeLoop_abort osOk (sortByAccess data) (min k0 10) i
      hiK hK halli' hbadi'
    rw [← hselK] at hrem
    refine ⟨?_, ?_, ?_⟩
    · rw [hok', hrem]
    · rw [hdata', hrem]
    · rw [htrace', hrem, htakei, hgetD]
  · intro k f hf g hg
    exact pairwise_take_drop hpair k f hf g hg

/-- Concrete instantiation of `C4_sweep_cycle`. -/
theorem C4_sweep_cycle_witness :
    ((0 : Int) < TotalSize dataFour) ∧ SweepLRUSpec 0 allOk dataFour :=
  ⟨by decide, C4_sweep_cycle 0 allOk dataFour (by decide)⟩

end GDrive
